import Mathlib

/-!
Verification of the TON mixer message-encoding subsystem.

The definitions below shallowly embed the Rust sources of the mixer API:
`src/types/mod.rs` (opcodes, message encoders, envelope construction),
`src/ton/mod.rs` (contract invocation paths, retry helper) and
`src/services/mixer.rs` / `src/controllers/mixer.rs` (the handler pipeline).
Machine integers are modelled as `Nat` with explicit bounds or `% 2^w`
where overflow matters; fallible operations return `Option` (a `none`
models a Rust panic via `.unwrap()`), and a Rust `Result` is `Except`.
-/

namespace TonMixer

/-! ## Cell model

Modelled from the spec (§3 Data Model, §4.2 CellTree): a cell is an ordered
bit sequence plus an ordered list of child-cell references; the underlying
binary format (the ledger's native cell format) bounds a cell to 1023 data
bits and 4 references, and a builder append that would exceed those limits
must fail rather than silently wrap.  The cell library itself (`tonlib`'s
`Cell`/`CellBuilder`) is an external collaborator, not part of `src/`. -/

inductive Cell : Type where
  | mk (bits : List Bool) (refs : List Cell)

def Cell.bits : Cell → List Bool
  | .mk b _ => b

def Cell.refs : Cell → List Cell
  | .mk _ r => r

def maxCellBits : Nat := 1023

def maxCellRefs : Nat := 4

/-- Big-endian bit sequence of the low `w` bits of `v`
(first element is the most significant of the `w` bits). -/
def natToBits (w v : Nat) : List Bool :=
  (List.range w).map (fun i => v.testBit (w - 1 - i))

/-- Decode a big-endian bit list back into a natural number. -/
def bitsToNat (l : List Bool) : Nat :=
  l.foldl (fun acc b => 2 * acc + (if b then 1 else 0)) 0

/-- The in-progress state of a cell builder: accumulated bits and references. -/
structure CellBuilder where
  bits : List Bool
  refs : List Cell

/-- `CellBuilder::new()`: an empty builder. -/
def CellBuilder.new : CellBuilder := ⟨[], []⟩

/-- Append the low `w` bits of `v`; fails (as the spec requires) if `v` does
not fit in `w` bits or the cell's 1023-bit capacity would be exceeded.
This models `store_u8`/`store_u32`/`store_u64`/`store_uint`. -/
def CellBuilder.storeUint (b : CellBuilder) (w v : Nat) : Option CellBuilder :=
  if v < 2 ^ w ∧ b.bits.length + w ≤ maxCellBits then
    some ⟨b.bits ++ natToBits w v, b.refs⟩
  else none

/-- `store_bit`: append a single boolean bit. -/
def CellBuilder.storeBit (b : CellBuilder) (bit : Bool) : Option CellBuilder :=
  if b.bits.length + 1 ≤ maxCellBits then some ⟨b.bits ++ [bit], b.refs⟩ else none

/-- `store_reference`: append a child-cell reference. -/
def CellBuilder.storeRef (b : CellBuilder) (c : Cell) : Option CellBuilder :=
  if b.refs.length + 1 ≤ maxCellRefs then some ⟨b.bits, b.refs ++ [c]⟩ else none

/-- `build()`: freeze the accumulated bits and references into a cell. -/
def CellBuilder.build (b : CellBuilder) : Cell := .mk b.bits b.refs

/-- A TON account address as the encoders consume it: a workchain byte and a
256-bit hash part (the bounds are carried as fields so that every value of
the type is a well-formed address). -/
structure TonAddress where
  workchain : Nat
  hashPart : Nat
  wc_lt : workchain < 2 ^ 8
  hash_lt : hashPart < 2 ^ 256

/-- `store_address` (external collaborator, modelled from the TON `addr_std`
layout it writes): tag bits `10`, one `0` anycast bit, 8 workchain bits,
256 hash bits — 267 bits in all. -/
def CellBuilder.storeAddress (b : CellBuilder) (a : TonAddress) : Option CellBuilder := do
  let b ← b.storeUint 2 2
  let b ← b.storeUint 1 0
  let b ← b.storeUint 8 a.workchain
  b.storeUint 256 a.hashPart

/-- Fuel-driven byte length of a natural number (the fuel argument only
makes the recursion structural; `coinBytes` supplies enough fuel). -/
def byteLenAux : Nat → Nat → Nat
  | 0, _ => 0
  | fuel + 1, n => if n = 0 then 0 else byteLenAux fuel (n / 256) + 1

/-- Number of bytes in the coin (var-uint) encoding of `n`: the least `k`
with `n < 2^(8*k)`. -/
def coinBytes (n : Nat) : Nat := byteLenAux n n

/-- `store_coins` (external collaborator, modelled from the TON `VarUInteger 16`
coin encoding it writes): a 4-bit byte-length prefix followed by that many
bytes; an amount needing 16 or more bytes (`n ≥ 2^120`) does not fit the
4-bit prefix and the append fails. -/
def CellBuilder.storeCoins (b : CellBuilder) (n : Nat) : Option CellBuilder := do
  let b ← b.storeUint 4 (coinBytes n)
  b.storeUint (8 * coinBytes n) n

/-! ## OpcodeRegistry (`generate_opcode`, src/types/mod.rs)

`generate_opcode` feeds the method name's UTF-8 bytes to a `crc32fast::Hasher`
and finalizes it.  `crc32fast` computes the standard CRC-32 (ISO-HDLC):
initial state `0xFFFFFFFF`, reflected polynomial `0xEDB88320`, final xor
`0xFFFFFFFF`; we embed the bitwise reference algorithm. -/

def crcPoly : Nat := 0xEDB88320

/-- One shift-and-conditionally-xor round of the reflected CRC-32 update. -/
def crcRound (r : Nat) : Nat :=
  if r % 2 = 1 then (r / 2) ^^^ crcPoly else r / 2

/-- Absorb one input byte into the CRC state: xor it in, then run 8 rounds. -/
def crcByte (r b : Nat) : Nat := crcRound^[8] (r ^^^ b)

/-- The `crc32fast::Hasher` state. -/
structure Hasher where
  state : Nat

/-- `Hasher::new()`. -/
def Hasher.new : Hasher := ⟨0xFFFFFFFF⟩

/-- `Hasher::update` over a byte sequence. -/
def Hasher.update (h : Hasher) (bytes : List Nat) : Hasher :=
  ⟨bytes.foldl crcByte h.state⟩

/-- `Hasher::finalize()`. -/
def Hasher.finalize (h : Hasher) : Nat := h.state ^^^ 0xFFFFFFFF

/-- UTF-8 encoding of a single Unicode code point. -/
def utf8Bytes (c : Nat) : List Nat :=
  if c < 0x80 then [c]
  else if c < 0x800 then
    [0xC0 ||| (c >>> 6), 0x80 ||| (c &&& 0x3F)]
  else if c < 0x10000 then
    [0xE0 ||| (c >>> 12), 0x80 ||| ((c >>> 6) &&& 0x3F), 0x80 ||| (c &&& 0x3F)]
  else
    [0xF0 ||| (c >>> 18), 0x80 ||| ((c >>> 12) &&& 0x3F),
     0x80 ||| ((c >>> 6) &&& 0x3F), 0x80 ||| (c &&& 0x3F)]

/-- UTF-8 bytes of a string (`str::as_bytes`). -/
def strBytes (s : String) : List Nat :=
  s.data.foldr (fun c acc => utf8Bytes c.toNat ++ acc) []

/-- `generate_opcode` (src/types/mod.rs:120): CRC-32 of the method name. -/
def generate_opcode (method_name : String) : Nat :=
  (Hasher.new.update (strBytes method_name)).finalize

/-- The `MixerOpcodes` record (src/types/mod.rs:112). -/
structure MixerOpcodes where
  spread : Nat
  collect : Nat
  fork : Nat

/-- `MixerOpcodes::new()` (src/types/mod.rs:128). -/
def MixerOpcodes.new : MixerOpcodes :=
  { spread := generate_opcode "op::spread"
  , collect := generate_opcode "op::collect"
  , fork := generate_opcode "op::fork" }

/-! ## Message encoders (src/types/mod.rs)

Each `build` mirrors the Rust `build` line by line; the surrounding `Option`
models the `.unwrap()` calls on the cell builder (a `none` is a panic),
while `Except String` is the `Result<_, String>` the collect encoder
returns. -/

/-- `ForkMessage` (src/types/mod.rs:160). -/
structure ForkMessage where
  timestamp : Nat

/-- `ForkMessage::build` (src/types/mod.rs:173): opcode(32) ‖ timestamp(64). -/
def ForkMessage.build (m : ForkMessage) : Option Cell := do
  let b := CellBuilder.new
  let b ← b.storeUint 32 MixerOpcodes.new.fork
  let b ← b.storeUint 64 m.timestamp
  return b.build

/-- `SpreadMessage` (src/types/mod.rs:184). -/
structure SpreadMessage where
  mode : Nat
  timestamp : Nat
  amount : Nat
  data : Cell

/-- `SpreadMessage::build` (src/types/mod.rs:203): opcode(32) ‖ timestamp(64)
‖ amount(64) ‖ mode(8) ‖ bit `true` ‖ one reference to `data`. -/
def SpreadMessage.build (m : SpreadMessage) : Option Cell := do
  let b := CellBuilder.new
  let b ← b.storeUint 32 MixerOpcodes.new.spread
  let b ← b.storeUint 64 m.timestamp
  let b ← b.storeUint 64 m.amount
  let b ← b.storeUint 8 m.mode
  let b ← b.storeBit true
  let b ← b.storeRef m.data
  return b.build

/-- `CollectMessage` (src/types/mod.rs:220): the amount is a `BigUint`,
modelled as an unbounded `Nat`. -/
structure CollectMessage where
  mode : Nat
  timestamp : Nat
  jetton_wallet : Option TonAddress
  amount : Option Nat

/-- `CollectMessage::build` (src/types/mod.rs:239): opcode(32) ‖ timestamp(64)
‖ mode(8), then nothing for modes 0–2, address+coins for mode 3 when both
fields are present, `Err` when a mode-3 field is missing or the mode is
outside 0–3.  The outer `Option` models the `.unwrap()`s on the builder. -/
def CollectMessage.build (m : CollectMessage) : Option (Except String Cell) := do
  let b := CellBuilder.new
  let b ← b.storeUint 32 MixerOpcodes.new.collect
  let b ← b.storeUint 64 m.timestamp
  let b ← b.storeUint 8 m.mode
  if m.mode = 0 ∨ m.mode = 1 ∨ m.mode = 2 then
    return Except.ok b.build
  else if m.mode = 3 then
    match m.jetton_wallet, m.amount with
    | some wallet, some amt => do
      let b ← b.storeAddress wallet
      let b ← b.storeCoins amt
      return Except.ok b.build
    | _, _ => return Except.error "Jetton wallet and amount are required for mode 3"
  else
    return Except.error "Invalid collect mode"

/-! ## Envelope construction (src/types/mod.rs:265) -/

/-- The signed external envelope as handed to the ledger network.  The
transfer-descriptor wrapping, signing and bag-of-cells serialization are
external wallet collaborators; modelled from the spec (§4.4), the envelope
records the destination, attached value, sequence number, expiry and
payload cell the source passes to them. -/
structure Envelope where
  destination : TonAddress
  value : Nat
  seqno : Nat
  expiry : Nat
  payload : Cell

/-- `create_external_singed_message` (src/types/mod.rs:265).  The source
computes the expiry as `now as u32 + 60`: the `u64` time is truncated to 32
bits and the addition wraps in `u32`, hence `((now % 2^32) + 60) % 2^32`. -/
def create_external_singed_message (seqno : Nat) (destination_address : TonAddress)
    (amount : Nat) (now : Nat) (body_payload : Cell) : Envelope :=
  { destination := destination_address
  , value := amount
  , seqno := seqno
  , expiry := ((now % 2 ^ 32) + 60) % 2 ^ 32
  , payload := body_payload }

/-! ## Contract invocation paths (src/ton/mod.rs)

The ledger client is an external collaborator; it is modelled as a function
from the call number (how many submissions have been made so far) to the
outcome of that submission: `some hash` or `none` for a transport error.
The sequence-number fetch, wallet derivation and configuration loading are
likewise external and enter as plain parameters. -/

/-- A ledger-client behaviour: the result of the n-th `send_raw_message_return_hash`
call (`some` bytes on success, `none` on a transport error). -/
def LedgerClient : Type := Nat → Option (List Nat)

/-- Inner loop of `send_with_retrys` (src/ton/mod.rs:69): returns the hash
returned to the caller, the number of client calls made, and the list of
backoff sleeps (in seconds) performed.  On a final failure the source
returns an empty byte vector. -/
def send_with_retrys_aux (client : LedgerClient) :
    Nat → Nat → List Nat → List Nat × Nat × List Nat
  | remaining, attempts, delays =>
    match client attempts with
    | some ans => (ans, attempts + 1, delays)
    | none =>
      match remaining with
      | 0 => ([], attempts + 1, delays)
      | r + 1 => send_with_retrys_aux client r (attempts + 1) (delays ++ [2 ^ attempts])

/-- `send_with_retrys` (src/ton/mod.rs:69): at most 2 retries after the
first failure (`remaining` counts the retries still allowed, mirroring the
source's `attempts < max` guard with `max = 2`), sleeping `2^attempts`
seconds before each retry.  The source marks it `dead_code`; no invocation
path calls it. -/
def send_with_retrys (client : LedgerClient) : List Nat × Nat × List Nat :=
  send_with_retrys_aux client 2 0 []

/-- `contract_invoke_fork` (src/ton/mod.rs:94) up to the submission: build
the fork body, wrap it in an envelope with value `5000000`. -/
def contract_invoke_fork_envelope (seqno : Nat) (contract_address : TonAddress)
    (now : Nat) : Option Envelope := do
  let body_payload ← ForkMessage.build ⟨now⟩
  return create_external_singed_message seqno contract_address 5000000 now body_payload

/-- `contract_invoke_fork` (src/ton/mod.rs:94): one direct
`send_raw_message_return_hash` call, `.unwrap()`ed (a client error panics). -/
def contract_invoke_fork (client : LedgerClient) (seqno : Nat)
    (contract_address : TonAddress) (now : Nat) : Option (Envelope × List Nat) := do
  let env ← contract_invoke_fork_envelope seqno contract_address now
  let hash ← client 0
  return (env, hash)

/-- A spread entry after address parsing and nano conversion
(`SpreadWallet`, src/types/mod.rs:91); the `BigUint` amount is a `Nat`. -/
structure SpreadWallet where
  account : TonAddress
  amount : Nat

/-- The payload fold of `contract_invoke_spread` (src/ton/mod.rs:145):
starting from `CellBuilder::new().build()` (the empty cell), each entry
builds a new cell holding a reference to the previous cell, the entry's
address and its coin amount. -/
def spread_payload_cell (spread_payload : List SpreadWallet) : Option Cell :=
  spread_payload.foldlM
    (fun payload entry => do
      let b := CellBuilder.new
      let b ← b.storeRef payload
      let b ← b.storeAddress entry.account
      let b ← b.storeCoins entry.amount
      return b.build)
    CellBuilder.new.build

/-- `contract_invoke_spread` (src/ton/mod.rs:134) up to the submission:
fold the payload, build `SpreadMessage::new(0, now, total_amount, payload)`,
wrap it in an envelope whose value is `total_amount + 5000000` (`u64`
addition, hence the `% 2^64`). -/
def contract_invoke_spread_envelope (total_amount : Nat)
    (spread_payload : List SpreadWallet) (seqno : Nat)
    (contract_address : TonAddress) (now : Nat) : Option Envelope := do
  let payload ← spread_payload_cell spread_payload
  let body_payload ← SpreadMessage.build ⟨0, now, total_amount, payload⟩
  return create_external_singed_message seqno contract_address
    ((total_amount + 5000000) % 2 ^ 64) now body_payload

/-- `contract_invoke_spread` (src/ton/mod.rs:134): one direct submission
call, `.unwrap()`ed. -/
def contract_invoke_spread (client : LedgerClient) (total_amount : Nat)
    (spread_payload : List SpreadWallet) (seqno : Nat)
    (contract_address : TonAddress) (now : Nat) : Option (Envelope × List Nat) := do
  let env ← contract_invoke_spread_envelope total_amount spread_payload seqno
    contract_address now
  let hash ← client 0
  return (env, hash)

/-- `CollectMessageData` (src/types/mod.rs:105). -/
structure CollectMessageData where
  mode : Nat
  jetton_wallet : Option TonAddress
  amount : Option Nat

/-- `contract_invoke_collect` (src/ton/mod.rs:186) up to the submission:
build the collect message — note the `.unwrap()` on its `Result`, so an
`Err` from the encoder panics — and wrap it with value `50000000`. -/
def contract_invoke_collect_envelope (message_data : CollectMessageData)
    (seqno : Nat) (contract_address : TonAddress) (now : Nat) : Option Envelope := do
  let r ← CollectMessage.build
    ⟨message_data.mode, now, message_data.jetton_wallet, message_data.amount⟩
  match r with
  | .ok body_payload =>
    return create_external_singed_message seqno contract_address 50000000 now body_payload
  | .error _ => none

/-- `contract_invoke_collect` (src/ton/mod.rs:186): one direct submission
call, `.unwrap()`ed. -/
def contract_invoke_collect (client : LedgerClient) (message_data : CollectMessageData)
    (seqno : Nat) (contract_address : TonAddress) (now : Nat) : Option (Envelope × List Nat) := do
  let env ← contract_invoke_collect_envelope message_data seqno contract_address now
  let hash ← client 0
  return (env, hash)

/-! ## Service and controller layer (src/services/mixer.rs, src/controllers/mixer.rs)

The HTTP payload amounts are Rust `f64` values; an `f64` is a (dyadic)
rational, so the amounts enter the model as exact rationals.  The nano
conversion `(amount * 1_000_000_000.0).round() as u64` is embedded in three
faithful steps: the `f64` product is the exact rational product rounded to
binary64 (round to nearest, ties to even — `fl64Frac`); `f64::round` rounds
half away from zero to an integer (`rustRoundFrac`); `as u64` is a
saturating cast (`rustCastU64`). -/

/-- Rust `f64::round` (half away from zero) applied to the exact fraction
`n / d`: for `n ≥ 0` it is `⌊n/d + 1/2⌋ = (2*n + d) / (2*d)` (natural floor
division), mirrored for negative `n`. -/
def rustRoundFrac (n : ℤ) (d : Nat) : ℤ :=
  if 0 ≤ n then
    ((2 * n.toNat + d) / (2 * d) : Nat)
  else
    -(((2 * (-n).toNat + d) / (2 * d) : Nat) : ℤ)

/-- Rust's saturating float-to-`u64` cast (`as u64`). -/
def rustCastU64 (z : ℤ) : Nat := min z.toNat (2 ^ 64 - 1)

/-- Fuel-driven binary length of a natural number (the fuel argument only
makes the recursion structural; `bitLen` supplies enough fuel). -/
def bitLenAux : Nat → Nat → Nat
  | 0, _ => 0
  | fuel + 1, n => if n = 0 then 0 else bitLenAux fuel (n / 2) + 1

/-- Number of binary digits of `n`: the least `k` with `n < 2^k`. -/
def bitLen (n : Nat) : Nat := bitLenAux n n

/-- Round to nearest, ties to even, of the fraction `n / d` (the IEEE-754
significand rounding), for `d ≠ 0`. -/
def rne (n d : Nat) : Nat :=
  if 2 * (n % d) < d then n / d
  else if d < 2 * (n % d) then n / d + 1
  else if (n / d) % 2 = 0 then n / d else n / d + 1

/-- `⌊log2 (A/D)⌋` for positive `A` and `D`: the bit-length difference
`g`, corrected down by one when `A/D < 2^g` (the comparison handles both
signs of `g` through the `toNat` pair, one of which is zero). -/
def ratFloorLog2 (A D : Nat) : ℤ :=
  if D * 2 ^ ((bitLen A : ℤ) - bitLen D).toNat ≤
      A * 2 ^ (-((bitLen A : ℤ) - bitLen D)).toNat then
    (bitLen A : ℤ) - bitLen D
  else
    (bitLen A : ℤ) - bitLen D - 1

/-- IEEE-754 binary64 rounding (round to nearest, ties to even) of the
nonnegative fraction `A / D`, returned as a fraction: the value is scaled
so that it lies in `[2^52, 2^53)`, rounded to an integer significand, and
scaled back.  The exponent is left unbounded (no sub-normal or overflow
handling); this cannot change any theorem below: a product under the
sub-normal threshold `2^-1022` rounds to the integer 0 under both
treatments, and an overflowing product ends in the saturated `u64`
`2^64 - 1` under both (IEEE produces infinity, whose saturating cast is
also `2^64 - 1`). -/
def fl64Frac (A D : Nat) : Nat × Nat :=
  if A = 0 then (0, 1)
  else if ratFloorLog2 A D ≤ 52 then
    (rne (A * 2 ^ (52 - ratFloorLog2 A D).toNat) D, 2 ^ (52 - ratFloorLog2 A D).toNat)
  else
    (rne A (D * 2 ^ (ratFloorLog2 A D - 52).toNat) * 2 ^ (ratFloorLog2 A D - 52).toNat, 1)

/-- `q` is exactly a binary64 value: an integer significand of magnitude
below `2^53` times a power of two (exponent unbounded, matching
`fl64Frac`; every `f64` product that IEEE multiplication computes exactly
is of this shape). -/
def F64Rep (q : ℚ) : Prop :=
  ∃ (m : ℤ) (e : ℤ), m.natAbs < 2 ^ 53 ∧ q = (m : ℚ) * (2 : ℚ) ^ e

/-- The nano conversion both services apply:
`(amount * 1_000_000_000.0).round() as u64`.  The exact rational product
(scaling applied to the numerator) is rounded to binary64 by `fl64Frac` —
the IEEE-754 correctly-rounded `f64` multiplication — then rounded half
away from zero (`f64::round`) and saturating-cast (`as u64`); rounding and
cast mirror the sign symmetry of the hardware operations. -/
def nanoOf (amount : ℚ) : Nat :=
  if 0 ≤ amount.num then
    rustCastU64 (rustRoundFrac
      ((fl64Frac (amount.num.toNat * 1000000000) amount.den).1 : ℤ)
      (fl64Frac (amount.num.toNat * 1000000000) amount.den).2)
  else
    rustCastU64 (rustRoundFrac
      (-((fl64Frac ((-amount.num).toNat * 1000000000) amount.den).1 : ℤ))
      (fl64Frac ((-amount.num).toNat * 1000000000) amount.den).2)

/-- `SpreadWalletPayload` (src/types/mod.rs:85): one JSON entry of the
spread request. -/
structure SpreadWalletPayload where
  account : String
  amount : ℚ

/-- `CollectPayload` (src/types/mod.rs:98): the JSON body of a collect
request. -/
structure CollectPayload where
  mode : Nat
  jetton_wallet : Option String
  amount : Option ℚ

/-- Modelled from the spec: the external address parser
(`TonAddress::from_str`, a `tonlib` collaborator).  The spec only requires
that a malformed address string fails to parse; well-formedness is modelled
as having exactly the 48 characters of the user-friendly base64 address
form, and every well-formed string decodes to some fixed address (the
decoded value itself is never inspected by the claims). -/
def parseTonAddress (s : String) : Option TonAddress :=
  if s.length = 48 then some ⟨0, 0, by norm_num, by norm_num⟩ else none

/-- The per-entry serialization loop of the spread service
(src/services/mixer.rs:24): convert the amount to nanos, add it to the
running `u64` total, and parse the account address with `.unwrap()` (a
parse failure panics, modelled by `none`). -/
def spreadSerialize (wallets : List SpreadWalletPayload) :
    Option (Nat × List SpreadWallet) :=
  wallets.foldlM
    (fun acc v => do
      let nano := nanoOf v.amount
      let account ← parseTonAddress v.account
      return ((acc.1 + nano) % 2 ^ 64, acc.2 ++ [⟨account, nano⟩]))
    (0, [])

/-- The outcome of a handler: a successful response, a structured 400, or
a panic escaping the handler. -/
inductive HandlerOutcome where
  | ok (env : Envelope) (hash : List Nat)
  | badRequest (msg : String)
  | crash

/-- `spread` service (src/services/mixer.rs:23) composed with its
controller (src/controllers/mixer.rs:23), which adds no validation:
serialize the entries and invoke the spread contract path. -/
def spreadHandler (wallets : List SpreadWalletPayload) (client : LedgerClient)
    (seqno : Nat) (contract_address : TonAddress) (now : Nat) : HandlerOutcome :=
  match (do
      let (total, entries) ← spreadSerialize wallets
      contract_invoke_spread client total entries seqno contract_address now) with
  | none => .crash
  | some (env, hash) => .ok env hash

/-- Modelled from the spec: the message of the structured 400 returned when
the controller's mode-3 address check fails (`err.to_string()` of the
external parse error). -/
def addressParseErrorMsg : String := "address parse error"

/-- `collect` service (src/services/mixer.rs:52): parse the optional
jetton wallet with `.unwrap()` (panic on failure), nano-convert the
optional amount, and invoke the collect contract path. -/
def collectService (payload : CollectPayload) (client : LedgerClient)
    (seqno : Nat) (contract_address : TonAddress) (now : Nat) : HandlerOutcome :=
  let jetton : Option (Option TonAddress) :=
    match payload.jetton_wallet with
    | none => some none
    | some w => (parseTonAddress w).map some
  match jetton with
  | none => .crash
  | some jw =>
    let amt := payload.amount.map nanoOf
    match contract_invoke_collect client ⟨payload.mode, jw, amt⟩ seqno
        contract_address now with
    | none => .crash
    | some (env, hash) => .ok env hash

/-- `collect` controller (src/controllers/mixer.rs:40): for mode 3 only, it
rejects a missing `jetton_wallet`, an unparseable `jetton_wallet`, and a
missing `amount` with structured 400s, then delegates to the service. -/
def collectController (payload : CollectPayload) (client : LedgerClient)
    (seqno : Nat) (contract_address : TonAddress) (now : Nat) : HandlerOutcome :=
  if payload.mode = 3 then
    match payload.jetton_wallet with
    | none => .badRequest "in collection mode 3 field `jetton_wallet` is required"
    | some w =>
      match parseTonAddress w with
      | none => .badRequest addressParseErrorMsg
      | some _ =>
        match payload.amount with
        | none => .badRequest "in collection mode 3 field `amount` is required"
        | some _ => collectService payload client seqno contract_address now
  else
    collectService payload client seqno contract_address now

/-! ## Derived descriptions of the encoded shapes

These definitions name the bit strings the builders above produce; they are
used to state the layout claims. -/

/-- The empty cell (`CellBuilder::new().build()`). -/
def emptyCell : Cell := .mk [] []

/-- The 267 bits `store_address` appends for an address. -/
def addrBits (a : TonAddress) : List Bool :=
  natToBits 2 2 ++ natToBits 1 0 ++ natToBits 8 a.workchain ++ natToBits 256 a.hashPart

/-- The bits `store_coins` appends for an amount. -/
def coinBits (n : Nat) : List Bool :=
  natToBits 4 (coinBytes n) ++ natToBits (8 * coinBytes n) n

/-- The bits of one spread payload entry cell: address then coin amount. -/
def entryBits (e : SpreadWallet) : List Bool := addrBits e.account ++ coinBits e.amount

/-- The linked-list cell chain the spread payload fold produces, written as
a pure fold: each entry wraps the previous chain as its sole reference. -/
def linkedCell (es : List SpreadWallet) : Cell :=
  es.foldl (fun prev e => .mk (entryBits e) [prev]) emptyCell

/-- Walk a cell chain: collect this cell's bits and recurse into its first
reference (`fuel` bounds the walk; the chain for `n` entries needs `n`). -/
def chainEntries : Nat → Cell → List (List Bool)
  | 0, _ => []
  | _ + 1, .mk _ [] => []
  | fuel + 1, .mk bs (r :: _) => bs :: chainEntries fuel r

/-- The bit layout shared by every collect message: opcode, timestamp, mode. -/
def collectHeaderBits (timestamp mode : Nat) : List Bool :=
  natToBits 32 MixerOpcodes.new.collect ++ natToBits 64 timestamp ++ natToBits 8 mode

/-- The bit layout of a spread message before its payload bit. -/
def spreadHeaderBits (timestamp amount mode : Nat) : List Bool :=
  natToBits 32 MixerOpcodes.new.spread ++ natToBits 64 timestamp ++
    natToBits 64 amount ++ natToBits 8 mode

/-! ## Concrete fixtures used by witnesses and counterexamples -/

/-- A concrete well-formed address. -/
def addrA : TonAddress := ⟨0, 7, by norm_num, by norm_num⟩

/-- A concrete well-formed 48-character account string
(parses under `parseTonAddress`). -/
def accountA : String := "AAAAAAAAAAAAAAAAAAAAAAAAAAAAAAAAAAAAAAAAAAAAAAAA"

/-- A ledger client that fails the first submission and succeeds afterwards. -/
def failThenOk : LedgerClient := fun n => if n = 0 then none else some [7]

/-- A ledger client that always fails. -/
def alwaysFail : LedgerClient := fun _ => none

/-- A ledger client that always succeeds with hash `[9]`. -/
def alwaysOk : LedgerClient := fun _ => some [9]

/-- Three spread entries of `8589934592.0` (`2^33`, exactly representable in
`f64`, with an exactly representable product `2^33 * 10^9 < 2^63`) whose
nano total overflows `u64`. -/
def wsOverflow : List SpreadWalletPayload :=
  [⟨accountA, 8589934592⟩, ⟨accountA, 8589934592⟩, ⟨accountA, 8589934592⟩]

/-- The two-entry spread request of the claim: amounts 1.5 and 2.5. -/
def wsClaim : List SpreadWalletPayload :=
  [⟨accountA, mkRat 3 2⟩, ⟨accountA, mkRat 5 2⟩]

/-- The parsed address with a fallback (used only to state the output of
the serializer; under a parse-success hypothesis it is the parsed value). -/
def parseOr (s : String) : TonAddress :=
  (parseTonAddress s).getD ⟨0, 0, by norm_num, by norm_num⟩

/-- The wrapping `u64` total the spread service accumulates. -/
def spreadTotalU64 (wallets : List SpreadWalletPayload) : Nat :=
  wallets.foldl (fun acc w => (acc + nanoOf w.amount) % 2 ^ 64) 0

/-- The `SpreadWallet` list the spread service constructs. -/
def spreadEntries (wallets : List SpreadWalletPayload) : List SpreadWallet :=
  wallets.map (fun w => ⟨parseOr w.account, nanoOf w.amount⟩)

/-! ## Bit-string lemmas -/

@[simp]
theorem natToBits_length (w v : Nat) : (natToBits w v).length = w := by
  simp [natToBits]

theorem natToBits_succ (w v : Nat) :
    natToBits (w + 1) v = v.testBit w :: natToBits w v := by
  simp only [natToBits, List.range_succ_eq_map, List.map_cons, List.map_map]
  refine congrArg₂ List.cons (by norm_num) ?_
  refine List.map_congr_left (fun i _ => ?_)
  have h : w - (i + 1) = w - 1 - i := by omega
  simp [Function.comp, h]

theorem bitsToNat_foldl (l : List Bool) (acc : Nat) :
    l.foldl (fun a b => 2 * a + (if b then 1 else 0)) acc =
      acc * 2 ^ l.length + bitsToNat l := by
  induction l generalizing acc with
  | nil => simp [bitsToNat]
  | cons b t ih =>
    simp only [List.foldl_cons, bitsToNat, List.length_cons]
    rw [ih, ih (2 * 0 + if b then 1 else 0)]
    ring

theorem bitsToNat_cons (b : Bool) (l : List Bool) :
    bitsToNat (b :: l) = (if b then 1 else 0) * 2 ^ l.length + bitsToNat l := by
  simp only [bitsToNat, List.foldl_cons]
  rw [bitsToNat_foldl]
  simp [bitsToNat]

theorem bitsToNat_natToBits_mod (w v : Nat) :
    bitsToNat (natToBits w v) = v % 2 ^ w := by
  induction w with
  | zero => simp [natToBits, bitsToNat, Nat.mod_one]
  | succ w ih =>
    rw [natToBits_succ, bitsToNat_cons, ih, natToBits_length]
    rw [Nat.testBit_to_div_mod, Nat.pow_succ, Nat.mod_mul]
    rcases Nat.mod_two_eq_zero_or_one (v / 2 ^ w) with h | h
    · simp [h]
      try omega
    · simp [h]
      try omega

theorem bitsToNat_natToBits (w v : Nat) (h : v < 2 ^ w) :
    bitsToNat (natToBits w v) = v := by
  rw [bitsToNat_natToBits_mod, Nat.mod_eq_of_lt h]

/-! ## The CRC-32 state stays a 32-bit value -/

theorem crcRound_lt (r : Nat) (h : r < 2 ^ 32) : crcRound r < 2 ^ 32 := by
  unfold crcRound
  have hdiv : r / 2 < 2 ^ 32 := lt_of_le_of_lt (Nat.div_le_self r 2) h
  split
  · exact Nat.xor_lt_two_pow hdiv (by norm_num [crcPoly])
  · exact hdiv

theorem crcRound_iter_lt (k r : Nat) (h : r < 2 ^ 32) : crcRound^[k] r < 2 ^ 32 := by
  induction k generalizing r with
  | zero => simpa using h
  | succ k ih =>
    rw [Function.iterate_succ_apply]
    exact ih _ (crcRound_lt r h)

theorem crcByte_lt (r b : Nat) (hr : r < 2 ^ 32) (hb : b < 2 ^ 32) :
    crcByte r b < 2 ^ 32 :=
  crcRound_iter_lt 8 _ (Nat.xor_lt_two_pow hr hb)

theorem crc_foldl_lt (bytes : List Nat) (r : Nat) (hr : r < 2 ^ 32)
    (hb : ∀ b ∈ bytes, b < 2 ^ 32) : bytes.foldl crcByte r < 2 ^ 32 := by
  induction bytes generalizing r with
  | nil => simpa using hr
  | cons x t ih =>
    exact ih _ (crcByte_lt r x hr (hb x (by simp))) (fun b hbm => hb b (by simp [hbm]))

theorem char_toNat_lt (c : Char) : c.toNat < 0x110000 := by
  rcases c.valid with h | h
  · exact lt_trans h (by norm_num)
  · exact h.2

theorem utf8Bytes_lt (c : Nat) (hc : c < 0x110000) :
    ∀ b ∈ utf8Bytes c, b < 2 ^ 32 := by
  intro b hb
  have h32 : (0x110000 : Nat) ≤ 2 ^ 32 := by norm_num
  unfold utf8Bytes at hb
  have hor : ∀ x y : Nat, x < 2 ^ 32 → y < 2 ^ 32 → x ||| y < 2 ^ 32 :=
    fun x y hx hy => Nat.or_lt_two_pow hx hy
  have hand : ∀ x : Nat, x &&& 0x3F < 2 ^ 32 :=
    fun x => Nat.and_lt_two_pow x (by norm_num)
  have hshift : ∀ k : Nat, c >>> k < 2 ^ 32 := by
    intro k
    rw [Nat.shiftRight_eq_div_pow]
    exact lt_of_le_of_lt (Nat.div_le_self _ _) (lt_of_lt_of_le hc h32)
  split at hb
  · simp at hb
    exact hb ▸ lt_of_lt_of_le hc h32
  · split at hb
    · simp at hb
      rcases hb with rfl | rfl
      · exact hor _ _ (by norm_num) (hshift 6)
      · exact hor _ _ (by norm_num) (hand c)
    · split at hb
      · simp at hb
        rcases hb with rfl | rfl | rfl
        · exact hor _ _ (by norm_num) (hshift 12)
        · exact hor _ _ (by norm_num) (hand _)
        · exact hor _ _ (by norm_num) (hand c)
      · simp at hb
        rcases hb with rfl | rfl | rfl | rfl
        · exact hor _ _ (by norm_num) (hshift 18)
        · exact hor _ _ (by norm_num) (hand _)
        · exact hor _ _ (by norm_num) (hand _)
        · exact hor _ _ (by norm_num) (hand c)

theorem strBytes_lt (s : String) : ∀ b ∈ strBytes s, b < 2 ^ 32 := by
  unfold strBytes
  induction s.data with
  | nil => simp
  | cons c t ih =>
    intro b hb
    simp only [List.foldr_cons, List.mem_append] at hb
    rcases hb with hb | hb
    · exact utf8Bytes_lt c.toNat (char_toNat_lt c) b hb
    · exact ih b hb

theorem generate_opcode_lt (name : String) : generate_opcode name < 2 ^ 32 := by
  unfold generate_opcode Hasher.finalize Hasher.update Hasher.new
  exact Nat.xor_lt_two_pow
    (crc_foldl_lt (strBytes name) _ (by norm_num) (strBytes_lt name))
    (by norm_num)

/-! ## Byte-length (coin encoding) bounds -/

theorem byteLenAux_spec (fuel : Nat) : ∀ n, n ≤ fuel → n < 2 ^ (8 * byteLenAux fuel n) := by
  induction fuel with
  | zero =>
    intro n hn
    interval_cases n
    simp [byteLenAux]
  | succ fuel ih =>
    intro n hn
    by_cases h0 : n = 0
    · simp [byteLenAux, h0]
    · have hdiv : n / 256 ≤ fuel := by
        have := Nat.div_lt_self (Nat.pos_of_ne_zero h0) (by norm_num : (1 : Nat) < 256)
        omega
      have hrec := ih (n / 256) hdiv
      simp only [byteLenAux, h0, if_false]
      have hmul : 8 * (byteLenAux fuel (n / 256) + 1) = 8 * byteLenAux fuel (n / 256) + 8 := by ring
      rw [hmul, pow_add]
      calc n < 256 * (n / 256 + 1) := by
              have := Nat.div_add_mod n 256
              have := Nat.mod_lt n (by norm_num : (0 : Nat) < 256)
              omega
        _ ≤ 256 * 2 ^ (8 * byteLenAux fuel (n / 256)) := by
              have : n / 256 + 1 ≤ 2 ^ (8 * byteLenAux fuel (n / 256)) := hrec
              exact Nat.mul_le_mul_left 256 this
        _ = 2 ^ (8 * byteLenAux fuel (n / 256)) * 2 ^ 8 := by ring

theorem byteLenAux_lower (fuel : Nat) :
    ∀ n, n ≤ fuel → n ≠ 0 → 2 ^ (8 * (byteLenAux fuel n - 1)) ≤ n := by
  induction fuel with
  | zero =>
    intro n hn h0
    omega
  | succ fuel ih =>
    intro n hn h0
    simp only [byteLenAux, h0, if_false]
    by_cases hq : n / 256 = 0
    · have : byteLenAux fuel (n / 256) = 0 := by
        cases fuel <;> simp [byteLenAux, hq]
      simp [this]
      omega
    · have hdiv : n / 256 ≤ fuel := by
        have := Nat.div_lt_self (Nat.pos_of_ne_zero h0) (by norm_num : (1 : Nat) < 256)
        omega
      have hrec := ih (n / 256) hdiv hq
      have hpos : 1 ≤ byteLenAux fuel (n / 256) := by
        rcases Nat.eq_zero_or_pos (byteLenAux fuel (n / 256)) with h | h
        · rw [h] at hrec
          simp at hrec
          have := byteLenAux_spec fuel (n / 256) hdiv
          rw [h] at this
          simp at this
          omega
        · exact h
      have hstep : 8 * (byteLenAux fuel (n / 256) + 1 - 1) =
          8 * (byteLenAux fuel (n / 256) - 1) + 8 := by omega
      rw [hstep, pow_add]
      calc 2 ^ (8 * (byteLenAux fuel (n / 256) - 1)) * 2 ^ 8
          ≤ (n / 256) * 256 := by
            have := Nat.mul_le_mul_right 256 hrec
            simpa using this
        _ ≤ n := by
            have := Nat.div_add_mod n 256
            omega

theorem coinBytes_spec (n : Nat) : n < 2 ^ (8 * coinBytes n) :=
  byteLenAux_spec n n le_rfl

theorem coinBytes_le_15 (n : Nat) (h : n < 2 ^ 120) : coinBytes n < 2 ^ 4 := by
  by_contra hc
  push_neg at hc
  have h0 : n ≠ 0 := by
    intro h0
    rw [h0] at hc
    simp [coinBytes, byteLenAux] at hc
  have := byteLenAux_lower n n le_rfl h0
  have h15 : 15 ≤ coinBytes n - 1 := by
    simp only [coinBytes] at hc ⊢
    omega
  have hle : 2 ^ (8 * 15) ≤ 2 ^ (8 * (coinBytes n - 1)) :=
    Nat.pow_le_pow_right (by norm_num) (by omega)
  have : (2 : Nat) ^ 120 ≤ n := le_trans (by norm_num) (le_trans hle this)
  omega

theorem coinBytes_le (n : Nat) (h : n < 2 ^ 120) : 8 * coinBytes n ≤ 120 := by
  have := coinBytes_le_15 n h
  simp only [Nat.lt_succ_iff] at this
  omega

/-! ## Builder-chain equations -/

theorem storeUint_some (b : CellBuilder) {w v : Nat} (hv : v < 2 ^ w)
    (hlen : b.bits.length + w ≤ maxCellBits) :
    b.storeUint w v = some ⟨b.bits ++ natToBits w v, b.refs⟩ := by
  simp [CellBuilder.storeUint, hv, hlen]

theorem storeBit_some (b : CellBuilder) (bit : Bool)
    (hlen : b.bits.length + 1 ≤ maxCellBits) :
    b.storeBit bit = some ⟨b.bits ++ [bit], b.refs⟩ := by
  simp [CellBuilder.storeBit, hlen]

theorem storeRef_some (b : CellBuilder) (c : Cell)
    (hlen : b.refs.length + 1 ≤ maxCellRefs) :
    b.storeRef c = some ⟨b.bits, b.refs ++ [c]⟩ := by
  simp [CellBuilder.storeRef, hlen]

theorem storeAddress_some (b : CellBuilder) (a : TonAddress)
    (hlen : b.bits.length + 267 ≤ maxCellBits) :
    b.storeAddress a = some ⟨b.bits ++ addrBits a, b.refs⟩ := by
  unfold CellBuilder.storeAddress
  rw [storeUint_some b (by norm_num) (by omega)]
  simp only [Option.bind_eq_bind, Option.some_bind]
  rw [storeUint_some _ (by norm_num) (by simp; omega)]
  simp only [Option.bind_eq_bind, Option.some_bind]
  rw [storeUint_some _ a.wc_lt (by simp; omega)]
  simp only [Option.bind_eq_bind, Option.some_bind]
  rw [storeUint_some _ a.hash_lt (by simp; omega)]
  simp [addrBits]

theorem storeCoins_some (b : CellBuilder) (n : Nat) (hn : n < 2 ^ 120)
    (hlen : b.bits.length + 124 ≤ maxCellBits) :
    b.storeCoins n = some ⟨b.bits ++ coinBits n, b.refs⟩ := by
  have hcb := coinBytes_le n hn
  unfold CellBuilder.storeCoins
  rw [storeUint_some b (coinBytes_le_15 n hn) (by omega)]
  simp only [Option.bind_eq_bind, Option.some_bind]
  rw [storeUint_some _ (coinBytes_spec n) (by simp; omega)]
  simp [coinBits]

/-- The exact cell `ForkMessage::build` produces. -/
theorem fork_build_eq (m : ForkMessage) (hts : m.timestamp < 2 ^ 64) :
    m.build = some (.mk
      (natToBits 32 MixerOpcodes.new.fork ++ natToBits 64 m.timestamp) []) := by
  unfold ForkMessage.build
  simp only [MixerOpcodes.new]
  rw [storeUint_some CellBuilder.new (generate_opcode_lt "op::fork")
    (by simp [CellBuilder.new, maxCellBits])]
  simp only [Option.bind_eq_bind, Option.some_bind]
  rw [storeUint_some _ hts (by simp [CellBuilder.new, maxCellBits])]
  simp [CellBuilder.new, CellBuilder.build]

/-- The exact cell `SpreadMessage::build` produces. -/
theorem spread_build_eq (m : SpreadMessage) (hts : m.timestamp < 2 ^ 64)
    (hamt : m.amount < 2 ^ 64) (hmode : m.mode < 2 ^ 8) :
    m.build = some (.mk
      (spreadHeaderBits m.timestamp m.amount m.mode ++ [true]) [m.data]) := by
  unfold SpreadMessage.build
  simp only [MixerOpcodes.new]
  rw [storeUint_some CellBuilder.new (generate_opcode_lt "op::spread")
    (by simp [CellBuilder.new, maxCellBits])]
  simp only [Option.bind_eq_bind, Option.some_bind]
  rw [storeUint_some _ hts (by simp [CellBuilder.new, maxCellBits])]
  simp only [Option.bind_eq_bind, Option.some_bind]
  rw [storeUint_some _ hamt (by simp [CellBuilder.new, maxCellBits])]
  simp only [Option.bind_eq_bind, Option.some_bind]
  rw [storeUint_some _ hmode (by simp [CellBuilder.new, maxCellBits])]
  simp only [Option.bind_eq_bind, Option.some_bind]
  rw [storeBit_some _ true (by simp [CellBuilder.new, maxCellBits])]
  simp only [Option.bind_eq_bind, Option.some_bind]
  rw [storeRef_some _ m.data (by simp [CellBuilder.new, maxCellRefs])]
  simp [CellBuilder.new, CellBuilder.build, spreadHeaderBits, MixerOpcodes.new]

/-- Modes 0–2: the collect cell is just the header, no references. -/
theorem collect_build_mode012 (m : CollectMessage) (hts : m.timestamp < 2 ^ 64)
    (hmode : m.mode = 0 ∨ m.mode = 1 ∨ m.mode = 2) :
    m.build = some (.ok (.mk (collectHeaderBits m.timestamp m.mode) [])) := by
  have hmode8 : m.mode < 2 ^ 8 := by rcases hmode with h | h | h <;> simp [h]
  unfold CollectMessage.build
  simp only [MixerOpcodes.new]
  rw [storeUint_some CellBuilder.new (generate_opcode_lt "op::collect")
    (by simp [CellBuilder.new, maxCellBits])]
  simp only [Option.bind_eq_bind, Option.some_bind]
  rw [storeUint_some _ hts (by simp [CellBuilder.new, maxCellBits])]
  simp only [Option.bind_eq_bind, Option.some_bind]
  rw [storeUint_some _ hmode8 (by simp [CellBuilder.new, maxCellBits])]
  simp only [Option.bind_eq_bind, Option.some_bind]
  rw [if_pos hmode]
  simp [CellBuilder.new, CellBuilder.build, collectHeaderBits, MixerOpcodes.new]

/-- Mode 3 with both fields present: header, address, then coins. -/
theorem collect_build_mode3 (m : CollectMessage) (w : TonAddress) (a : Nat)
    (hts : m.timestamp < 2 ^ 64) (hmode : m.mode = 3)
    (hw : m.jetton_wallet = some w) (ha : m.amount = some a) (hamt : a < 2 ^ 120) :
    m.build = some (.ok (.mk
      (collectHeaderBits m.timestamp m.mode ++ addrBits w ++ coinBits a) [])) := by
  unfold CollectMessage.build
  simp only [MixerOpcodes.new]
  rw [storeUint_some CellBuilder.new (generate_opcode_lt "op::collect")
    (by simp [CellBuilder.new, maxCellBits])]
  simp only [Option.bind_eq_bind, Option.some_bind]
  rw [storeUint_some _ hts (by simp [CellBuilder.new, maxCellBits])]
  simp only [Option.bind_eq_bind, Option.some_bind]
  rw [storeUint_some _ (show m.mode < 2 ^ 8 by simp [hmode])
    (by simp [CellBuilder.new, maxCellBits])]
  simp only [Option.bind_eq_bind, Option.some_bind]
  rw [if_neg (by simp [hmode]), if_pos hmode, hw, ha]
  simp only
  rw [storeAddress_some _ w (by simp [CellBuilder.new, maxCellBits])]
  simp only [Option.bind_eq_bind, Option.some_bind]
  rw [storeCoins_some _ a hamt (by simp [CellBuilder.new, addrBits, maxCellBits])]
  simp [CellBuilder.new, CellBuilder.build, collectHeaderBits, MixerOpcodes.new, List.append_assoc]

/-- Mode 3 with a missing field: the defined error. -/
theorem collect_build_mode3_missing (m : CollectMessage) (hts : m.timestamp < 2 ^ 64)
    (hmode : m.mode = 3) (hmiss : m.jetton_wallet = none ∨ m.amount = none) :
    m.build = some (.error "Jetton wallet and amount are required for mode 3") := by
  unfold CollectMessage.build
  simp only [MixerOpcodes.new]
  rw [storeUint_some CellBuilder.new (generate_opcode_lt "op::collect")
    (by simp [CellBuilder.new, maxCellBits])]
  simp only [Option.bind_eq_bind, Option.some_bind]
  rw [storeUint_some _ hts (by simp [CellBuilder.new, maxCellBits])]
  simp only [Option.bind_eq_bind, Option.some_bind]
  rw [storeUint_some _ (show m.mode < 2 ^ 8 by simp [hmode])
    (by simp [CellBuilder.new, maxCellBits])]
  simp only [Option.bind_eq_bind, Option.some_bind]
  rw [if_neg (by simp [hmode]), if_pos hmode]
  rcases hmiss with h | h
  · rw [h]
    rcases ha : m.amount with _ | a <;> simp
  · rw [h]
    rcases hw : m.jetton_wallet with _ | w <;> simp

/-- A mode outside 0–3: the defined error. -/
theorem collect_build_invalid (m : CollectMessage) (hts : m.timestamp < 2 ^ 64)
    (hmode8 : m.mode < 2 ^ 8) (hmode : 4 ≤ m.mode) :
    m.build = some (.error "Invalid collect mode") := by
  unfold CollectMessage.build
  simp only [MixerOpcodes.new]
  rw [storeUint_some CellBuilder.new (generate_opcode_lt "op::collect")
    (by simp [CellBuilder.new, maxCellBits])]
  simp only [Option.bind_eq_bind, Option.some_bind]
  rw [storeUint_some _ hts (by simp [CellBuilder.new, maxCellBits])]
  simp only [Option.bind_eq_bind, Option.some_bind]
  rw [storeUint_some _ hmode8 (by simp [CellBuilder.new, maxCellBits])]
  simp only [Option.bind_eq_bind, Option.some_bind]
  rw [if_neg (by omega), if_neg (by omega)]
  rfl

/-! ## The spread payload fold -/

theorem spread_payload_foldlM (es : List SpreadWallet) (acc : Cell)
    (h : ∀ e ∈ es, e.amount < 2 ^ 120) :
    (es.foldlM
      (fun payload entry => do
        let b := CellBuilder.new
        let b ← b.storeRef payload
        let b ← b.storeAddress entry.account
        let b ← b.storeCoins entry.amount
        return b.build)
      acc : Option Cell) =
      some (es.foldl (fun prev e => Cell.mk (entryBits e) [prev]) acc) := by
  induction es generalizing acc with
  | nil => simp
  | cons e t ih =>
    rw [List.foldlM_cons]
    have hstep : (do
        let b := CellBuilder.new
        let b ← b.storeRef acc
        let b ← b.storeAddress e.account
        let b ← b.storeCoins e.amount
        return b.build : Option Cell) = some (Cell.mk (entryBits e) [acc]) := by
      simp only
      rw [storeRef_some CellBuilder.new acc (by simp [CellBuilder.new, maxCellRefs])]
      simp only [Option.bind_eq_bind, Option.some_bind]
      rw [storeAddress_some _ e.account (by simp [CellBuilder.new, maxCellBits])]
      simp only [Option.bind_eq_bind, Option.some_bind]
      rw [storeCoins_some _ e.amount (h e (by simp))
        (by simp [CellBuilder.new, addrBits, maxCellBits])]
      simp [CellBuilder.new, CellBuilder.build, entryBits]
    rw [hstep]
    simp only [Option.bind_eq_bind, Option.some_bind]
    exact ih _ (fun x hx => h x (by simp [hx]))

/-- The payload fold of `contract_invoke_spread` builds exactly the linked
cell chain. -/
theorem spread_payload_cell_eq (es : List SpreadWallet)
    (h : ∀ e ∈ es, e.amount < 2 ^ 120) :
    spread_payload_cell es = some (linkedCell es) := by
  unfold spread_payload_cell linkedCell
  have hempty : CellBuilder.new.build = emptyCell := rfl
  rw [hempty]
  exact spread_payload_foldlM es emptyCell h

theorem linkedCell_nil : linkedCell [] = emptyCell := rfl

theorem linkedCell_snoc (es : List SpreadWallet) (e : SpreadWallet) :
    linkedCell (es ++ [e]) = Cell.mk (entryBits e) [linkedCell es] := by
  simp [linkedCell, List.foldl_append]

theorem chainEntries_linkedCell (es : List SpreadWallet) :
    chainEntries es.length (linkedCell es) = es.reverse.map entryBits := by
  induction es using List.reverseRecOn with
  | nil => simp [linkedCell, emptyCell, chainEntries]
  | append_singleton es e ih =>
    rw [linkedCell_snoc]
    simp only [List.length_append, List.length_singleton, List.reverse_append,
      List.reverse_singleton, List.singleton_append, List.map_cons]
    rw [show es.length + 1 = es.length + 1 from rfl]
    simp only [chainEntries]
    rw [ih]

/-! ## The nano conversion agrees with exact rounding -/

theorem rustRoundFrac_nonneg_eq (n : ℤ) (d : ℕ) (hn : 0 ≤ n) (hd : d ≠ 0) :
    rustRoundFrac n d = ⌊((n : ℚ) / (d : ℚ)) + 1 / 2⌋ := by
  unfold rustRoundFrac
  rw [if_pos hn]
  have hq : ((n : ℚ) / (d : ℚ)) + 1 / 2 =
      ((2 * n + d : ℤ) : ℚ) / ((2 * d : ℕ) : ℚ) := by
    have hd0 : ((d : ℚ)) ≠ 0 := Nat.cast_ne_zero.mpr hd
    push_cast
    field_simp
    ring
  rw [hq, Rat.floor_intCast_div_natCast]
  have h2n : (2 * n + d : ℤ) = ((2 * n.toNat + d : ℕ) : ℤ) := by
    push_cast
    omega
  rw [h2n, Int.ofNat_tdiv]
  rw [Int.tdiv_eq_ediv (by positivity) (by positivity)]

/-! ### Bit length -/

theorem bitLenAux_spec (fuel : Nat) : ∀ n, n ≤ fuel → n < 2 ^ bitLenAux fuel n := by
  induction fuel with
  | zero =>
    intro n hn
    interval_cases n
    simp [bitLenAux]
  | succ fuel ih =>
    intro n hn
    by_cases h0 : n = 0
    · simp [bitLenAux, h0]
    · have hdiv : n / 2 ≤ fuel := by
        have := Nat.div_lt_self (Nat.pos_of_ne_zero h0) (by norm_num : (1 : Nat) < 2)
        omega
      have hrec := ih (n / 2) hdiv
      simp only [bitLenAux, h0, if_false]
      rw [pow_succ]
      calc n < 2 * (n / 2 + 1) := by
            have := Nat.div_add_mod n 2
            have := Nat.mod_lt n (by norm_num : (0 : Nat) < 2)
            omega
        _ ≤ 2 * 2 ^ bitLenAux fuel (n / 2) := Nat.mul_le_mul_left 2 hrec
        _ = 2 ^ bitLenAux fuel (n / 2) * 2 := by ring

theorem bitLenAux_lower (fuel : Nat) :
    ∀ n, n ≤ fuel → n ≠ 0 → 2 ^ (bitLenAux fuel n - 1) ≤ n := by
  induction fuel with
  | zero =>
    intro n hn h0
    omega
  | succ fuel ih =>
    intro n hn h0
    simp only [bitLenAux, h0, if_false]
    by_cases hq : n / 2 = 0
    · have : bitLenAux fuel (n / 2) = 0 := by
        cases fuel <;> simp [bitLenAux, hq]
      simp [this]
      omega
    · have hdiv : n / 2 ≤ fuel := by
        have := Nat.div_lt_self (Nat.pos_of_ne_zero h0) (by norm_num : (1 : Nat) < 2)
        omega
      have hrec := ih (n / 2) hdiv hq
      have hpos : 1 ≤ bitLenAux fuel (n / 2) := by
        rcases Nat.eq_zero_or_pos (bitLenAux fuel (n / 2)) with h | h
        · have := bitLenAux_spec fuel (n / 2) hdiv
          rw [h] at this
          simp at this
          omega
        · exact h
      have hstep : bitLenAux fuel (n / 2) + 1 - 1 =
          (bitLenAux fuel (n / 2) - 1) + 1 := by omega
      rw [hstep, pow_succ]
      calc 2 ^ (bitLenAux fuel (n / 2) - 1) * 2 ≤ (n / 2) * 2 :=
            Nat.mul_le_mul_right 2 hrec
        _ ≤ n := by
            have := Nat.div_add_mod n 2
            omega

theorem bitLen_spec (n : Nat) : n < 2 ^ bitLen n :=
  bitLenAux_spec n n le_rfl

theorem bitLen_lower (n : Nat) (h : n ≠ 0) : 2 ^ (bitLen n - 1) ≤ n :=
  bitLenAux_lower n n le_rfl h

theorem bitLen_pos (n : Nat) (h : n ≠ 0) : 1 ≤ bitLen n := by
  rcases n with _ | k
  · exact absurd rfl h
  · simp [bitLen, bitLenAux]

/-! ### Exactness of the binary64 rounding on representable values -/

theorem rne_exact (n d : Nat) (hd : d ≠ 0) (hdvd : d ∣ n) : rne n d = n / d := by
  have hr : n % d = 0 := Nat.mod_eq_zero_of_dvd hdvd
  have hdpos : 0 < d := Nat.pos_of_ne_zero hd
  simp [rne, hr, hdpos]

theorem zpow_le_div_of_cross (A D : Nat) (k : ℤ) (hD : D ≠ 0)
    (h : D * 2 ^ k.toNat ≤ A * 2 ^ (-k).toNat) :
    (2 : ℚ) ^ k ≤ (A : ℚ) / (D : ℚ) := by
  have hD0 : (0 : ℚ) < D := by exact_mod_cast Nat.pos_of_ne_zero hD
  have h2 : ((D * 2 ^ k.toNat : ℕ) : ℚ) ≤ ((A * 2 ^ (-k).toNat : ℕ) : ℚ) := by
    exact_mod_cast h
  push_cast at h2
  have hzp : (2 : ℚ) ^ k * 2 ^ (-k).toNat = 2 ^ k.toNat := by
    rw [← zpow_natCast (2 : ℚ) (-k).toNat, ← zpow_natCast (2 : ℚ) k.toNat,
      ← zpow_add₀ (by norm_num : (2 : ℚ) ≠ 0)]
    congr 1
    omega
  rw [le_div_iff₀ hD0]
  have hpos : (0 : ℚ) < 2 ^ (-k).toNat := by positivity
  rw [← mul_le_mul_right hpos]
  calc (2 : ℚ) ^ k * D * 2 ^ (-k).toNat
      = (D : ℚ) * (2 ^ k * 2 ^ (-k).toNat) := by ring
    _ = (D : ℚ) * 2 ^ k.toNat := by rw [hzp]
    _ ≤ (A : ℚ) * 2 ^ (-k).toNat := h2

theorem bitLen_ratio_lower (A D : Nat) (hA : A ≠ 0) (_hD : D ≠ 0) :
    D * 2 ^ ((bitLen A : ℤ) - bitLen D - 1).toNat ≤
      A * 2 ^ (-((bitLen A : ℤ) - bitLen D - 1)).toNat := by
  have hA1 : 2 ^ (bitLen A - 1) ≤ A := bitLen_lower A hA
  have hD1 : D < 2 ^ bitLen D := bitLen_spec D
  have hLA : 1 ≤ bitLen A := bitLen_pos A hA
  rcases le_or_lt (bitLen D + 1) (bitLen A) with hcase | hcase
  · have e1 : ((bitLen A : ℤ) - bitLen D - 1).toNat = bitLen A - bitLen D - 1 := by
      omega
    have e2 : (-((bitLen A : ℤ) - bitLen D - 1)).toNat = 0 := by omega
    rw [e1, e2, pow_zero, mul_one]
    have hlt : D * 2 ^ (bitLen A - bitLen D - 1) <
        2 ^ bitLen D * 2 ^ (bitLen A - bitLen D - 1) :=
      Nat.mul_lt_mul_of_lt_of_le hD1 le_rfl (by positivity)
    rw [← pow_add] at hlt
    have heq : bitLen D + (bitLen A - bitLen D - 1) = bitLen A - 1 := by omega
    rw [heq] at hlt
    omega
  · have e1 : ((bitLen A : ℤ) - bitLen D - 1).toNat = 0 := by omega
    have e2 : (-((bitLen A : ℤ) - bitLen D - 1)).toNat = bitLen D - bitLen A + 1 := by
      omega
    rw [e1, e2, pow_zero, mul_one]
    have h1 : 2 ^ (bitLen A - 1) * 2 ^ (bitLen D - bitLen A + 1) ≤
        A * 2 ^ (bitLen D - bitLen A + 1) :=
      Nat.mul_le_mul_right _ hA1
    rw [← pow_add] at h1
    have heq : bitLen A - 1 + (bitLen D - bitLen A + 1) = bitLen D := by omega
    rw [heq] at h1
    omega

theorem ratFloorLog2_le (A D : Nat) (hA : A ≠ 0) (hD : D ≠ 0) :
    (2 : ℚ) ^ ratFloorLog2 A D ≤ (A : ℚ) / (D : ℚ) := by
  unfold ratFloorLog2
  split
  · next h => exact zpow_le_div_of_cross A D _ hD h
  · next h => exact zpow_le_div_of_cross A D _ hD (bitLen_ratio_lower A D hA hD)

theorem ratFloorLog2_le_exp (A D : Nat) (hA : A ≠ 0) (hD : D ≠ 0)
    (m : ℕ) (e : ℤ) (hm : m < 2 ^ 53)
    (hval : (A : ℚ) / (D : ℚ) = (m : ℚ) * (2 : ℚ) ^ e) :
    ratFloorLog2 A D ≤ e + 52 := by
  have hlow := ratFloorLog2_le A D hA hD
  have hmq : (m : ℚ) < (2 : ℚ) ^ (53 : ℕ) := by exact_mod_cast hm
  have hq : (A : ℚ) / (D : ℚ) < (2 : ℚ) ^ (e + 53) := by
    rw [hval, zpow_add₀ (by norm_num : (2 : ℚ) ≠ 0)]
    calc (m : ℚ) * 2 ^ e < 2 ^ (53 : ℕ) * 2 ^ e :=
          mul_lt_mul_of_pos_right hmq (zpow_pos (by norm_num) e)
      _ = 2 ^ e * 2 ^ (53 : ℤ) := by
          rw [mul_comm]
          congr 1
          exact (zpow_natCast 2 53).symm
  have hlt : (2 : ℚ) ^ ratFloorLog2 A D < (2 : ℚ) ^ (e + 53) :=
    lt_of_le_of_lt hlow hq
  have := (zpow_lt_zpow_iff_right₀ (by norm_num : (1 : ℚ) < 2)).mp hlt
  omega

/-- On exactly representable values the binary64 rounding is the identity:
`fl64Frac` returns a fraction with the same value. -/
theorem fl64Frac_exact (A D : Nat) (hD : D ≠ 0) (m : ℕ) (e : ℤ)
    (hm : m < 2 ^ 53) (hval : (A : ℚ) / (D : ℚ) = (m : ℚ) * (2 : ℚ) ^ e) :
    (fl64Frac A D).2 ≠ 0 ∧
      ((fl64Frac A D).1 : ℚ) / ((fl64Frac A D).2 : ℚ) = (A : ℚ) / (D : ℚ) := by
  have hD0 : ((D : ℚ)) ≠ 0 := Nat.cast_ne_zero.mpr hD
  by_cases hA : A = 0
  · subst hA
    simp [fl64Frac]
  · have hm0 : m ≠ 0 := by
      intro h0
      rw [h0] at hval
      simp only [Nat.cast_zero, zero_mul] at hval
      exact hA (Nat.cast_eq_zero.mp ((div_eq_zero_iff.mp hval).resolve_right hD0))
    have hfl52 := ratFloorLog2_le_exp A D hA hD m e hm hval
    have hA' : (A : ℚ) = (m : ℚ) * 2 ^ e * D := by
      field_simp at hval
      linarith [hval]
    unfold fl64Frac
    rw [if_neg hA]
    set fl := ratFloorLog2 A D with hfldef
    by_cases hc : fl ≤ 52
    · rw [if_pos hc]
      set s : ℕ := (52 - fl).toNat with hsdef
      set E : ℕ := (e + 52 - fl).toNat with hEdef
      have hsplit : (2 : ℚ) ^ e * 2 ^ s = 2 ^ E := by
        rw [← zpow_natCast (2 : ℚ) s, ← zpow_natCast (2 : ℚ) E,
          ← zpow_add₀ (by norm_num : (2 : ℚ) ≠ 0)]
        congr 1
        omega
      have hkey : A * 2 ^ s = m * 2 ^ E * D := by
        have hq : ((A * 2 ^ s : ℕ) : ℚ) = ((m * 2 ^ E * D : ℕ) : ℚ) := by
          push_cast
          rw [hA']
          calc (m : ℚ) * 2 ^ e * D * 2 ^ s
              = (m : ℚ) * (2 ^ e * 2 ^ s) * D := by ring
            _ = (m : ℚ) * 2 ^ E * D := by rw [hsplit]
        exact_mod_cast hq
      have hdvd : D ∣ A * 2 ^ s := ⟨m * 2 ^ E, by rw [hkey]; ring⟩
      have hrneq : rne (A * 2 ^ s) D = m * 2 ^ E := by
        rw [rne_exact _ _ hD hdvd, hkey,
          Nat.mul_div_cancel _ (Nat.pos_of_ne_zero hD)]
      refine ⟨by positivity, ?_⟩
      simp only
      rw [hrneq, hval, div_eq_iff (by positivity : (((2 ^ s : ℕ) : ℚ)) ≠ 0)]
      push_cast
      rw [← hsplit]
      ring
    · rw [if_neg hc]
      set t : ℕ := (fl - 52).toNat with htdef
      set E : ℕ := (e + 52 - fl).toNat with hEdef
      have hsplit : (2 : ℚ) ^ E * 2 ^ t = 2 ^ e := by
        rw [← zpow_natCast (2 : ℚ) E, ← zpow_natCast (2 : ℚ) t,
          ← zpow_add₀ (by norm_num : (2 : ℚ) ≠ 0)]
        congr 1
        omega
      have hkey : A = m * 2 ^ E * (D * 2 ^ t) := by
        have hq : ((A : ℕ) : ℚ) = ((m * 2 ^ E * (D * 2 ^ t) : ℕ) : ℚ) := by
          push_cast
          rw [hA', ← hsplit]
          ring
        exact_mod_cast hq
      have hD2 : D * 2 ^ t ≠ 0 := by positivity
      have hdvd : D * 2 ^ t ∣ A := ⟨m * 2 ^ E, by rw [hkey]; ring⟩
      have hrneq : rne A (D * 2 ^ t) = m * 2 ^ E := by
        rw [rne_exact _ _ hD2 hdvd]
        rw [hkey, Nat.mul_div_cancel _ (Nat.pos_of_ne_zero hD2)]
      refine ⟨one_ne_zero, ?_⟩
      simp only
      rw [hrneq, hval, Nat.cast_one, div_one]
      push_cast
      rw [← hsplit]
      ring

/-- For nonnegative amounts whose exact product with `10^9` is a binary64
value and whose rounded nano value fits in `u64`, the service's conversion
is exactly `round(amount * 10^9)` — the claim's "multiplied by `10^9` and
rounded to the nearest integer" (IEEE multiplication is correctly rounded,
so it is exact on representable products). -/
theorem nanoOf_eq_round (a : ℚ) (h0 : 0 ≤ a) (hrep : F64Rep (a * 1000000000))
    (hlt : round (a * 1000000000) < 2 ^ 64) :
    (nanoOf a : ℤ) = round (a * 1000000000) := by
  obtain ⟨mi, e, hm, hval⟩ := hrep
  have hnum : 0 ≤ a.num := Rat.num_nonneg.mpr h0
  have hq0 : (0 : ℚ) ≤ a * 1000000000 := by positivity
  have hmi0 : 0 ≤ mi := by
    by_contra hneg
    push_neg at hneg
    have h2e : (0 : ℚ) < 2 ^ e := zpow_pos (by norm_num) e
    have : (mi : ℚ) * 2 ^ e < 0 :=
      mul_neg_of_neg_of_pos (by exact_mod_cast hneg) h2e
    rw [← hval] at this
    linarith
  have hmnat : mi.toNat < 2 ^ 53 := by omega
  have hden : a.den ≠ 0 := a.den_nz
  have hAD : ((a.num.toNat * 1000000000 : ℕ) : ℚ) / (a.den : ℚ) = a * 1000000000 := by
    conv_rhs => rw [← Rat.num_div_den a]
    have hd0 : ((a.den : ℚ)) ≠ 0 := Nat.cast_ne_zero.mpr hden
    have hcast : ((a.num.toNat : ℕ) : ℚ) = ((a.num : ℤ) : ℚ) := by
      exact_mod_cast congrArg (fun z : ℤ => (z : ℚ)) (Int.toNat_of_nonneg hnum)
    push_cast
    rw [hcast]
    field_simp
  have hvalN : ((a.num.toNat * 1000000000 : ℕ) : ℚ) / (a.den : ℚ) =
      ((mi.toNat : ℕ) : ℚ) * (2 : ℚ) ^ e := by
    rw [hAD, hval]
    congr 1
    exact_mod_cast (Int.toNat_of_nonneg hmi0).symm
  obtain ⟨hp2, hpv⟩ :=
    fl64Frac_exact (a.num.toNat * 1000000000) a.den hden mi.toNat e hmnat hvalN
  have hfv : (((fl64Frac (a.num.toNat * 1000000000) a.den).1 : ℤ) : ℚ) /
      (((fl64Frac (a.num.toNat * 1000000000) a.den).2 : ℕ) : ℚ) = a * 1000000000 := by
    rw [← hAD, ← hpv]
    norm_num
  have hr : rustRoundFrac ((fl64Frac (a.num.toNat * 1000000000) a.den).1 : ℤ)
      (fl64Frac (a.num.toNat * 1000000000) a.den).2 = round (a * 1000000000) := by
    rw [rustRoundFrac_nonneg_eq _ _ (Int.ofNat_nonneg _) hp2, hfv, round_eq]
  unfold nanoOf
  rw [if_pos hnum]
  unfold rustCastU64
  rw [hr]
  have hnonneg : 0 ≤ round (a * 1000000000) := by
    rw [← hr]
    unfold rustRoundFrac
    rw [if_pos (Int.ofNat_nonneg _)]
    exact Int.ofNat_nonneg _
  have htoNat : ((round (a * 1000000000)).toNat : ℤ) = round (a * 1000000000) :=
    Int.toNat_of_nonneg hnonneg
  have hsmall : (round (a * 1000000000)).toNat ≤ 2 ^ 64 - 1 := by omega
  rw [min_eq_left hsmall]
  exact htoNat

/-- For nonnegative rationals, exact rounding of `a * 10^9` is the
half-up integer rounding of the exact fraction. -/
theorem round_nano_eq (a : ℚ) (h0 : 0 ≤ a) :
    round (a * 1000000000) = rustRoundFrac (a.num * 1000000000) a.den := by
  have hnum : 0 ≤ a.num := Rat.num_nonneg.mpr h0
  have hden : a.den ≠ 0 := a.den_nz
  have hmul : a * 1000000000 = ((a.num * 1000000000 : ℤ) : ℚ) / ((a.den : ℕ) : ℚ) := by
    conv_lhs => rw [← Rat.num_div_den a]
    have hd0 : ((a.den : ℚ)) ≠ 0 := Nat.cast_ne_zero.mpr hden
    push_cast
    field_simp
  rw [rustRoundFrac_nonneg_eq _ _ (by positivity) hden, round_eq, hmul]

set_option maxRecDepth 10000 in
/-- Where the binary64 product rounding matters, `nanoOf` follows the
program, not exact rounding: for the `f64` amount `4509912253162387 * 2^-52`
the `f64` product is exactly `1001401684.5` and the program's nano value is
`1001401685`, while exact rounding of the rational product (which lies just
below the half) gives `1001401684`. -/
theorem nanoOf_f64_divergence :
    nanoOf (mkRat 4509912253162387 (2 ^ 52)) = 1001401685 ∧
    round ((mkRat 4509912253162387 (2 ^ 52) : ℚ) * 1000000000) = 1001401684 := by
  constructor
  · decide
  · rw [round_nano_eq _ (by norm_num [mkRat])]
    decide

/-- The nano conversion always fits in `u64` (the cast saturates). -/
theorem nanoOf_lt (a : ℚ) : nanoOf a < 2 ^ 64 := by
  unfold nanoOf rustCastU64
  split
  · omega
  · omega

/-! ## Claim theorems -/

/-- C7: for every timestamp (a `u64`), `ForkMessage::build` yields a cell
with no references, and reading back 32 bits then 64 bits recovers the fork
opcode and the original timestamp exactly (round-trip). -/
theorem C7_fork_roundtrip (t : Nat) (ht : t < 2 ^ 64) :
    ∃ c, ForkMessage.build ⟨t⟩ = some c ∧
      bitsToNat (c.bits.take 32) = MixerOpcodes.new.fork ∧
      bitsToNat ((c.bits.drop 32).take 64) = t ∧
      c.refs = [] := by
  refine ⟨_, fork_build_eq ⟨t⟩ ht, ?_, ?_, rfl⟩
  · have h32 : (natToBits 32 MixerOpcodes.new.fork).length = 32 := natToBits_length _ _
    simp only [Cell.bits]
    rw [List.take_left' h32]
    exact bitsToNat_natToBits 32 _ (generate_opcode_lt "op::fork")
  · have h32 : (natToBits 32 MixerOpcodes.new.fork).length = 32 := natToBits_length _ _
    simp only [Cell.bits]
    rw [List.drop_left' h32, List.take_of_length_le (by simp)]
    exact bitsToNat_natToBits 64 t ht

/-- Witness for C7 at timestamp 5. -/
theorem C7_fork_roundtrip_witness :
    ∃ c, ForkMessage.build ⟨5⟩ = some c ∧
      bitsToNat (c.bits.take 32) = MixerOpcodes.new.fork ∧
      bitsToNat ((c.bits.drop 32).take 64) = 5 ∧
      c.refs = [] :=
  C7_fork_roundtrip 5 (by norm_num)

/-- C8: `generate_opcode` is a pure function of the name: it always returns
a 32-bit value, and equal names give equal opcodes (in this embedding the
hasher is a value, so there are no side effects or error outcomes). -/
theorem C8_opcode_pure (name : String) :
    generate_opcode name < 2 ^ 32 ∧
    ∀ name2 : String, name2 = name → generate_opcode name2 = generate_opcode name :=
  ⟨generate_opcode_lt name, fun _ h => by rw [h]⟩

/-- Witness for C8 at the name `"op::spread"`. -/
theorem C8_opcode_pure_witness :
    generate_opcode "op::spread" < 2 ^ 32 ∧
    generate_opcode "op::spread" = generate_opcode "op::spread" :=
  ⟨(C8_opcode_pure "op::spread").1, (C8_opcode_pure "op::spread").2 "op::spread" rfl⟩

/-- C3: for every mode (`u8`), timestamp (`u64`), total amount (`u64`) and
payload cell, `SpreadMessage::build` produces the cell whose bits are, in
order, opcode(32) ‖ timestamp(64) ‖ total(64) ‖ mode(8) ‖ the single
has-payload bit, with exactly one reference, to the payload cell. -/
theorem C3_spread_layout (mode timestamp amount : Nat) (data : Cell)
    (hmode : mode < 2 ^ 8) (hts : timestamp < 2 ^ 64) (hamt : amount < 2 ^ 64) :
    SpreadMessage.build ⟨mode, timestamp, amount, data⟩ =
      some (Cell.mk
        (natToBits 32 MixerOpcodes.new.spread ++ natToBits 64 timestamp ++
          natToBits 64 amount ++ natToBits 8 mode ++ [true]) [data]) := by
  rw [spread_build_eq ⟨mode, timestamp, amount, data⟩ hts hamt hmode]
  simp [spreadHeaderBits, List.append_assoc]

/-- Witness for C3 at mode 0, timestamp 11, amount 22, empty payload. -/
theorem C3_spread_layout_witness :
    SpreadMessage.build ⟨0, 11, 22, emptyCell⟩ =
      some (Cell.mk
        (natToBits 32 MixerOpcodes.new.spread ++ natToBits 64 11 ++
          natToBits 64 22 ++ natToBits 8 0 ++ [true]) [emptyCell]) :=
  C3_spread_layout 0 11 22 emptyCell (by norm_num) (by norm_num) (by norm_num)

/-- C10: `SpreadMessage::build` stores the has-payload bit `true` and
exactly one payload reference unconditionally; with zero spread entries the
service total is 0, the payload reference is the empty cell, and the header
total-amount field encodes 0. -/
theorem C10_empty_spread (mode timestamp amount : Nat) (data : Cell)
    (hmode : mode < 2 ^ 8) (hts : timestamp < 2 ^ 64) (hamt : amount < 2 ^ 64)
    (seqno now : Nat) (caddr : TonAddress) (hnow : now < 2 ^ 64) :
    SpreadMessage.build ⟨mode, timestamp, amount, data⟩ =
      some (Cell.mk (spreadHeaderBits timestamp amount mode ++ [true]) [data]) ∧
    contract_invoke_spread_envelope 0 [] seqno caddr now =
      some { destination := caddr
           , value := 5000000
           , seqno := seqno
           , expiry := ((now % 2 ^ 32) + 60) % 2 ^ 32
           , payload := Cell.mk (spreadHeaderBits now 0 0 ++ [true]) [emptyCell] } := by
  constructor
  · exact spread_build_eq ⟨mode, timestamp, amount, data⟩ hts hamt hmode
  · unfold contract_invoke_spread_envelope
    rw [spread_payload_cell_eq [] (by simp), linkedCell_nil]
    simp only [Option.bind_eq_bind, Option.some_bind]
    rw [spread_build_eq ⟨0, now, 0, emptyCell⟩ hnow (by norm_num) (by norm_num)]
    simp only [Option.bind_eq_bind, Option.some_bind]
    unfold create_external_singed_message
    norm_num

/-- Witness for C10 at mode 1, timestamp 3, amount 4, and an empty-entry
spread at time 9. -/
theorem C10_empty_spread_witness :
    SpreadMessage.build ⟨1, 3, 4, emptyCell⟩ =
      some (Cell.mk (spreadHeaderBits 3 4 1 ++ [true]) [emptyCell]) ∧
    contract_invoke_spread_envelope 0 [] 2 addrA 9 =
      some { destination := addrA
           , value := 5000000
           , seqno := 2
           , expiry := ((9 % 2 ^ 32) + 60) % 2 ^ 32
           , payload := Cell.mk (spreadHeaderBits 9 0 0 ++ [true]) [emptyCell] } :=
  C10_empty_spread 1 3 4 emptyCell (by norm_num) (by norm_num) (by norm_num)
    2 9 addrA (by norm_num)

/-- C5 counterexample: at construction time `t = 2^32` the encoded expiry is
60, not `2^32 + 60` — the source truncates the time to `u32` first. -/
theorem C5_expiry_counterexample :
    (create_external_singed_message 0 addrA 0 (2 ^ 32) emptyCell).expiry = 60 ∧
    (60 : Nat) ≠ 2 ^ 32 + 60 := by
  constructor
  · norm_num [create_external_singed_message]
  · norm_num

/-- C5 (amended): for every construction time `t` with `t + 60 < 2^32`
(every realistic clock value until 2106), the encoded expiry equals
`t + 60`; in general the expiry is `((t mod 2^32) + 60) mod 2^32`. -/
theorem C5_expiry (seqno : Nat) (dest : TonAddress) (amount now : Nat) (body : Cell)
    (h : now + 60 < 2 ^ 32) :
    (create_external_singed_message seqno dest amount now body).expiry = now + 60 := by
  unfold create_external_singed_message
  simp only
  omega

/-- Witness for C5 at `now = 1700000000`. -/
theorem C5_expiry_witness :
    (create_external_singed_message 3 addrA 5 1700000000 emptyCell).expiry =
      1700000000 + 60 :=
  C5_expiry 3 addrA 5 1700000000 emptyCell (by norm_num)

set_option maxRecDepth 10000 in
/-- C1 counterexample: with mode 3, both fields present and the (unbounded
`BigUint`) amount `2^120`, the coin encoding does not fit a cell and the
`.unwrap()`ed builder call panics — `build` neither succeeds nor returns
the typed error, contradicting "succeeds whenever both fields are present"
and "never panics". -/
theorem C1_collect_counterexample :
    (CollectMessage.build ⟨3, 0, some addrA, some (2 ^ 120)⟩).isNone = true := by
  decide

/-- C1 (amended): for every collect message with a `u64` timestamp, `u8`
mode, and any optional jetton wallet and amount with the amount below the
`2^120` coin-encoding bound: modes 0–2 succeed with only opcode, timestamp
and mode encoded and no references; mode 3 with both fields succeeds with
address and coins appended; mode 3 with a missing field returns the
missing-fields error; any mode in 4..=255 returns the invalid-mode error;
and under the amount bound `build` never panics. -/
theorem C1_collect_build (m : CollectMessage) (hts : m.timestamp < 2 ^ 64)
    (hmode : m.mode < 2 ^ 8) (hamt : ∀ a ∈ m.amount, a < 2 ^ 120) :
    (m.mode = 0 ∨ m.mode = 1 ∨ m.mode = 2 →
      m.build = some (.ok (.mk (collectHeaderBits m.timestamp m.mode) []))) ∧
    (m.mode = 3 → ∀ w a, m.jetton_wallet = some w → m.amount = some a →
      m.build = some (.ok (.mk
        (collectHeaderBits m.timestamp m.mode ++ addrBits w ++ coinBits a) []))) ∧
    (m.mode = 3 → m.jetton_wallet = none ∨ m.amount = none →
      m.build = some (.error "Jetton wallet and amount are required for mode 3")) ∧
    (4 ≤ m.mode →
      m.build = some (.error "Invalid collect mode")) ∧
    m.build ≠ none := by
  refine ⟨fun h => collect_build_mode012 m hts h,
    fun h3 w a hw ha => collect_build_mode3 m w a hts h3 hw ha (hamt a (ha ▸ rfl)),
    fun h3 hmiss => collect_build_mode3_missing m hts h3 hmiss,
    fun h4 => collect_build_invalid m hts hmode h4, ?_⟩
  rcases Nat.lt_or_ge m.mode 3 with hlt | hge
  · rw [collect_build_mode012 m hts (by omega)]
    simp
  · rcases Nat.eq_or_lt_of_le hge with h3 | h4
    · rcases hw : m.jetton_wallet with _ | w
      · rw [collect_build_mode3_missing m hts h3.symm (Or.inl hw)]
        simp
      · rcases ha : m.amount with _ | a
        · rw [collect_build_mode3_missing m hts h3.symm (Or.inr ha)]
          simp
        · rw [collect_build_mode3 m w a hts h3.symm hw ha (hamt a (ha ▸ rfl))]
          simp
    · rw [collect_build_invalid m hts hmode (by omega)]
      simp

/-- Witness for C1 at mode 3 with both fields present and amount 5. -/
theorem C1_collect_build_witness :
    CollectMessage.build ⟨3, 0, some addrA, some 5⟩ ≠ none :=
  (C1_collect_build ⟨3, 0, some addrA, some 5⟩ (by norm_num) (by norm_num)
    (by intro a ha; simp only [Option.mem_def, Option.some.injEq] at ha; omega)).2.2.2.2

/-- C4: the spread payload is built by folding the entry list from the
empty cell; each entry's cell holds exactly the entry's address-and-amount
bits and exactly one reference, to the chain of the previous entries, so
the most recent entry sits at the root, walking the references lists the
entries in reverse input order, and the deepest leaf is the empty cell. -/
theorem C4_spread_payload_chain (es : List SpreadWallet)
    (h : ∀ e ∈ es, e.amount < 2 ^ 120) :
    spread_payload_cell es = some (linkedCell es) ∧
    linkedCell [] = emptyCell ∧
    (∀ (init : List SpreadWallet) (e : SpreadWallet),
      linkedCell (init ++ [e]) = Cell.mk (entryBits e) [linkedCell init]) ∧
    chainEntries es.length (linkedCell es) = es.reverse.map entryBits :=
  ⟨spread_payload_cell_eq es h, linkedCell_nil, linkedCell_snoc,
    chainEntries_linkedCell es⟩

/-- Witness for C4 at a concrete two-entry list. -/
theorem C4_spread_payload_chain_witness :
    spread_payload_cell [⟨addrA, 10⟩, ⟨addrA, 20⟩] =
      some (linkedCell [⟨addrA, 10⟩, ⟨addrA, 20⟩]) ∧
    linkedCell [] = emptyCell ∧
    (∀ (init : List SpreadWallet) (e : SpreadWallet),
      linkedCell (init ++ [e]) = Cell.mk (entryBits e) [linkedCell init]) ∧
    chainEntries ([⟨addrA, 10⟩, ⟨addrA, 20⟩] : List SpreadWallet).length
        (linkedCell [⟨addrA, 10⟩, ⟨addrA, 20⟩]) =
      ([⟨addrA, 10⟩, ⟨addrA, 20⟩] : List SpreadWallet).reverse.map entryBits :=
  C4_spread_payload_chain [⟨addrA, 10⟩, ⟨addrA, 20⟩] (by decide)

/-- C6: a malformed spread entry account makes the handler panic (`unwrap`
on the address parse) instead of returning a structured 400; a malformed
collect `jetton_wallet` is rejected with a 400 only under mode 3 — under
any other mode the service panics on the same parse.  Only the mode-3
collect path matches the claimed behaviour. -/
theorem C6_malformed_address_behaviour :
    spreadHandler [⟨"not-an-address", 1⟩] alwaysOk 0 addrA 0 = .crash ∧
    collectController ⟨3, some "not-an-address", some 1⟩ alwaysOk 0 addrA 0 =
      .badRequest addressParseErrorMsg ∧
    collectController ⟨0, some "not-an-address", some 1⟩ alwaysOk 0 addrA 0 =
      .crash := by
  refine ⟨rfl, rfl, rfl⟩

set_option maxRecDepth 10000 in
/-- C9 counterexample: with a client that fails the first submission and
would succeed on a retry, the fork path panics after its single direct
`send_raw_message_return_hash` call, while `send_with_retrys` would have
returned the hash on the second attempt — no submission path goes through
the bounded-retry helper. -/
theorem C9_retry_counterexample :
    (contract_invoke_fork failThenOk 0 addrA 0).isNone = true ∧
    send_with_retrys failThenOk = ([7], 2, [1]) := by
  constructor
  · decide
  · decide

/-- C9 (amended): the dead-code helper `send_with_retrys` does implement
the claimed policy — at most two retries after a failure, sleeping 1 s then
2 s, though a final failure is returned as an empty hash — but none of the
fork, spread or collect submission paths uses it: each depends only on the
first client call and surfaces a first-call failure as a panic with no
retry. -/
theorem C9_retry_paths (client : LedgerClient) :
    (∀ a, client 0 = some a → send_with_retrys client = (a, 1, [])) ∧
    (∀ a, client 0 = none → client 1 = some a →
      send_with_retrys client = (a, 2, [1])) ∧
    (∀ a, client 0 = none → client 1 = none → client 2 = some a →
      send_with_retrys client = (a, 3, [1, 2])) ∧
    (client 0 = none → client 1 = none → client 2 = none →
      send_with_retrys client = ([], 3, [1, 2])) ∧
    (client 0 = none → ∀ seqno caddr now,
      contract_invoke_fork client seqno caddr now = none ∧
      (∀ total entries,
        contract_invoke_spread client total entries seqno caddr now = none) ∧
      (∀ d, contract_invoke_collect client d seqno caddr now = none)) ∧
    (∀ client2 : LedgerClient, client 0 = client2 0 → ∀ seqno caddr now,
      contract_invoke_fork client seqno caddr now =
        contract_invoke_fork client2 seqno caddr now ∧
      (∀ total entries,
        contract_invoke_spread client total entries seqno caddr now =
          contract_invoke_spread client2 total entries seqno caddr now) ∧
      (∀ d, contract_invoke_collect client d seqno caddr now =
        contract_invoke_collect client2 d seqno caddr now)) := by
  refine ⟨?_, ?_, ?_, ?_, ?_, ?_⟩
  · intro a h0
    simp [send_with_retrys, send_with_retrys_aux, h0]
  · intro a h0 h1
    simp [send_with_retrys, send_with_retrys_aux, h0, h1]
  · intro a h0 h1 h2
    simp [send_with_retrys, send_with_retrys_aux, h0, h1, h2]
  · intro h0 h1 h2
    simp [send_with_retrys, send_with_retrys_aux, h0, h1, h2]
  · intro h0 seqno caddr now
    refine ⟨?_, fun total entries => ?_, fun d => ?_⟩
    · unfold contract_invoke_fork
      cases h : contract_invoke_fork_envelope seqno caddr now <;> simp [h, h0]
    · unfold contract_invoke_spread
      cases h : contract_invoke_spread_envelope total entries seqno caddr now <;>
        simp [h, h0]
    · unfold contract_invoke_collect
      cases h : contract_invoke_collect_envelope d seqno caddr now <;> simp [h, h0]
  · intro client2 heq seqno caddr now
    refine ⟨?_, fun total entries => ?_, fun d => ?_⟩
    · unfold contract_invoke_fork
      rw [heq]
    · unfold contract_invoke_spread
      rw [heq]
    · unfold contract_invoke_collect
      rw [heq]

/-- Witness for C9: a first-call success takes one attempt with no sleeps,
and an always-failing client makes the fork path fail hard. -/
theorem C9_retry_paths_witness :
    send_with_retrys alwaysOk = ([9], 1, []) ∧
    contract_invoke_fork alwaysFail 0 addrA 0 = none :=
  ⟨(C9_retry_paths alwaysOk).1 [9] rfl,
    ((C9_retry_paths alwaysFail).2.2.2.2.1 rfl 0 addrA 0).1⟩

/-! ## The spread serializer -/

theorem spreadSerialize_go (wallets : List SpreadWalletPayload) :
    ∀ acc : Nat × List SpreadWallet,
    (∀ w ∈ wallets, (parseTonAddress w.account).isSome = true) →
    (wallets.foldlM
      (fun acc v => do
        let nano := nanoOf v.amount
        let account ← parseTonAddress v.account
        return ((acc.1 + nano) % 2 ^ 64, acc.2 ++ [⟨account, nano⟩]))
      acc : Option (Nat × List SpreadWallet)) =
      some (wallets.foldl (fun a w => (a + nanoOf w.amount) % 2 ^ 64) acc.1,
        acc.2 ++ spreadEntries wallets) := by
  induction wallets with
  | nil => simp [spreadEntries]
  | cons w t ih =>
    intro acc hparse
    obtain ⟨addr, haddr⟩ :=
      Option.isSome_iff_exists.mp (hparse w (by simp))
    have htail : ∀ x ∈ t, (parseTonAddress x.account).isSome = true :=
      fun x hx => hparse x (by simp [hx])
    set f : Nat × List SpreadWallet → SpreadWalletPayload →
        Option (Nat × List SpreadWallet) :=
      (fun acc v => do
        let nano := nanoOf v.amount
        let account ← parseTonAddress v.account
        return ((acc.1 + nano) % 2 ^ 64, acc.2 ++ [⟨account, nano⟩])) with hf
    rw [List.foldlM_cons]
    have hstep : f acc w =
        some ((acc.1 + nanoOf w.amount) % 2 ^ 64,
          acc.2 ++ [⟨addr, nanoOf w.amount⟩]) := by
      rw [hf]
      simp [haddr]
    rw [hstep]
    simp only [Option.bind_eq_bind, Option.some_bind]
    rw [ih _ htail]
    simp only [spreadEntries, List.map_cons, List.foldl_cons]
    have hp : parseOr w.account = addr := by
      simp [parseOr, haddr]
    simp [hp, List.append_assoc]

theorem spreadSerialize_eq (wallets : List SpreadWalletPayload)
    (hparse : ∀ w ∈ wallets, (parseTonAddress w.account).isSome = true) :
    spreadSerialize wallets = some (spreadTotalU64 wallets, spreadEntries wallets) := by
  unfold spreadSerialize spreadTotalU64
  rw [spreadSerialize_go wallets (0, []) hparse]
  simp

theorem spreadTotalU64_go (wallets : List SpreadWalletPayload) :
    ∀ acc : Nat,
    acc + (wallets.map (fun w => nanoOf w.amount)).sum < 2 ^ 64 →
    wallets.foldl (fun a w => (a + nanoOf w.amount) % 2 ^ 64) acc =
      acc + (wallets.map (fun w => nanoOf w.amount)).sum := by
  induction wallets with
  | nil => simp
  | cons w t ih =>
    intro acc hlt
    simp only [List.map_cons, List.sum_cons] at hlt
    simp only [List.foldl_cons, List.map_cons, List.sum_cons]
    rw [Nat.mod_eq_of_lt (by omega), ih _ (by omega)]
    omega

/-- Under no `u64` overflow, the accumulated total is the exact sum. -/
theorem spreadTotalU64_eq (wallets : List SpreadWalletPayload)
    (h : (wallets.map (fun w => nanoOf w.amount)).sum < 2 ^ 64) :
    spreadTotalU64 wallets = (wallets.map (fun w => nanoOf w.amount)).sum := by
  unfold spreadTotalU64
  rw [spreadTotalU64_go wallets 0 (by omega)]
  omega

set_option maxRecDepth 10000 in
/-- C2 counterexample: three entries of `8589934592.0` (`2^33` — the amount,
its product with `10^9`, and each per-entry nano value are exactly
representable in `f64`) make the accumulated `u64` total wrap around: the
serializer total is `7323059702290448384`, but the sum of the per-entry
nano amounts is `25769803776000000000` — the claimed equality fails for
this entry list. -/
theorem C2_total_overflow_counterexample :
    (spreadSerialize wsOverflow).map (fun p => p.1) = some 7323059702290448384 ∧
    (wsOverflow.map (fun w => nanoOf w.amount)).sum = 25769803776000000000 ∧
    (7323059702290448384 : Nat) ≠ 25769803776000000000 := by
  refine ⟨by decide, by decide, by decide⟩

/-- C2 (amended): for every entry list whose accounts parse and whose nano
total plus the 5000000 fee stays below `2^64`: the serializer's total is
exactly the sum of the per-entry nano amounts, the spread-message header
encodes that sum as its 64-bit total field, and the envelope's attached
value is the sum plus the fee constant 5000000; moreover each per-entry
nano amount equals the human amount times `10^9` rounded to the nearest
integer whenever the amount is nonnegative, its exact product with `10^9`
is a binary64 value (IEEE multiplication is then exact — as for the
claim's amounts 1.5 and 2.5), and the rounded value fits `u64`. -/
theorem C2_spread_totals (wallets : List SpreadWalletPayload)
    (seqno now : Nat) (caddr : TonAddress) (hnow : now < 2 ^ 64)
    (hparse : ∀ w ∈ wallets, (parseTonAddress w.account).isSome = true)
    (hsum : (wallets.map (fun w => nanoOf w.amount)).sum + 5000000 < 2 ^ 64) :
    spreadSerialize wallets =
      some ((wallets.map (fun w => nanoOf w.amount)).sum, spreadEntries wallets) ∧
    (∀ w ∈ wallets, 0 ≤ w.amount → F64Rep (w.amount * 1000000000) →
      round (w.amount * 1000000000) < 2 ^ 64 →
      (nanoOf w.amount : ℤ) = round (w.amount * 1000000000)) ∧
    contract_invoke_spread_envelope ((wallets.map (fun w => nanoOf w.amount)).sum)
        (spreadEntries wallets) seqno caddr now =
      some { destination := caddr
           , value := (wallets.map (fun w => nanoOf w.amount)).sum + 5000000
           , seqno := seqno
           , expiry := ((now % 2 ^ 32) + 60) % 2 ^ 32
           , payload := Cell.mk
               (spreadHeaderBits now
                  ((wallets.map (fun w => nanoOf w.amount)).sum) 0 ++ [true])
               [linkedCell (spreadEntries wallets)] } := by
  refine ⟨?_, ?_, ?_⟩
  · rw [spreadSerialize_eq wallets hparse, spreadTotalU64_eq wallets (by omega)]
  · intro w _ h0 hrep hlt
    exact nanoOf_eq_round w.amount h0 hrep hlt
  · have hamts : ∀ e ∈ spreadEntries wallets, e.amount < 2 ^ 120 := by
      intro e he
      simp only [spreadEntries, List.mem_map] at he
      obtain ⟨w, _, rfl⟩ := he
      exact lt_trans (nanoOf_lt w.amount) (by norm_num)
    have hs64 : (wallets.map (fun w => nanoOf w.amount)).sum < 2 ^ 64 := by omega
    unfold contract_invoke_spread_envelope
    rw [spread_payload_cell_eq (spreadEntries wallets) hamts]
    simp only [Option.bind_eq_bind, Option.some_bind]
    rw [spread_build_eq ⟨0, now, (wallets.map (fun w => nanoOf w.amount)).sum,
      linkedCell (spreadEntries wallets)⟩ hnow hs64 (by norm_num)]
    simp only [Option.bind_eq_bind, Option.some_bind]
    unfold create_external_singed_message
    have hmod : ((wallets.map (fun w => nanoOf w.amount)).sum + 5000000) % 2 ^ 64 =
        (wallets.map (fun w => nanoOf w.amount)).sum + 5000000 :=
      Nat.mod_eq_of_lt hsum
    rw [hmod]
    rfl

set_option maxRecDepth 10000 in
set_option maxHeartbeats 2000000 in
/-- Witness for C2 at the claim's entries `[(A, 1.5), (A, 2.5)]`: the
per-entry nanos are 1_500_000_000 and 2_500_000_000 and agree with exact
rounding (both products are binary64 values), the serializer total is
4_000_000_000, and the envelope value is that total plus 5000000. -/
theorem C2_spread_totals_witness :
    spreadSerialize wsClaim = some (4000000000, spreadEntries wsClaim) ∧
    nanoOf (mkRat 3 2) = 1500000000 ∧
    nanoOf (mkRat 5 2) = 2500000000 ∧
    (nanoOf (mkRat 3 2) : ℤ) = round ((mkRat 3 2 : ℚ) * 1000000000) ∧
    contract_invoke_spread_envelope 4000000000 (spreadEntries wsClaim) 1 addrA 2 =
      some { destination := addrA
           , value := 4000000000 + 5000000
           , seqno := 1
           , expiry := ((2 % 2 ^ 32) + 60) % 2 ^ 32
           , payload := Cell.mk
               (spreadHeaderBits 2 4000000000 0 ++ [true])
               [linkedCell (spreadEntries wsClaim)] } := by
  have h := C2_spread_totals wsClaim 1 2 addrA (by norm_num) (by decide) (by decide)
  have hsum : (wsClaim.map (fun w => nanoOf w.amount)).sum = 4000000000 := by decide
  rw [hsum] at h
  have h32 : (mkRat 3 2 : ℚ) = 3 / 2 := by norm_num [mkRat]
  have hprod : (mkRat 3 2 : ℚ) * 1000000000 = ((1500000000 : ℤ) : ℚ) := by
    rw [h32]
    norm_num
  refine ⟨h.1, by decide, by decide, ?_, h.2.2⟩
  refine h.2.1 ⟨accountA, mkRat 3 2⟩ (by simp [wsClaim]) ?_ ?_ ?_
  · rw [h32]
    norm_num
  · exact ⟨1500000000, 0, by norm_num, by rw [hprod, zpow_zero, mul_one]⟩
  · rw [hprod, round_intCast]
    norm_num

end TonMixer
